import Mathlib

set_option maxHeartbeats 1000000

namespace FM

/-- Strings are modelled as lists of Unicode characters, mirroring the
sequence of chars of a Rust str value. -/
abbrev Str := List Char

deriving instance DecidableEq for Except

/-- Whitespace predicate of Rust char::is_whitespace (the Unicode White_Space
property), written on the code point. -/
def rustIsWhitespace (c : Char) : Bool :=
  let n := c.toNat
  (9 ≤ n && n ≤ 13) || n == 32 || n == 0x85 || n == 0xA0 || n == 0x1680 ||
    (0x2000 ≤ n && n ≤ 0x200A) || n == 0x2028 || n == 0x2029 || n == 0x202F ||
    n == 0x205F || n == 0x3000

/-- Embedding of Rust str::trim_end: drop trailing whitespace characters. -/
def rustTrimEnd (s : Str) : Str :=
  (s.reverse.dropWhile rustIsWhitespace).reverse

/-- Hexadecimal digit test of src/lib.rs line 119, the pattern
0..=9 or a..=f, written on the code point (char range comparison in Rust
compares code points). -/
def isHexLower (c : Char) : Bool :=
  let n := c.toNat
  (48 ≤ n && n ≤ 57) || (97 ≤ n && n ≤ 102)

/-- Embedding of Rust str::starts_with for a string pattern. -/
def strStartsWith : Str → Str → Bool
  | _, [] => true
  | [], _ :: _ => false
  | c :: s, p :: ps => c == p && strStartsWith s ps

/-- Embedding of Rust str::split for a char separator: always yields one part
more than the number of separators, keeping empty parts. -/
def splitSep (sep : Char) : Str → List Str
  | [] => [[]]
  | c :: cs =>
    if c == sep then [] :: splitSep sep cs
    else
      match splitSep sep cs with
      | [] => [[c]]
      | p :: ps => (c :: p) :: ps

/-- Embedding of Rust str::split_terminator for a char separator: like split,
but a final empty part (produced by a trailing separator or by an empty
input) is omitted. -/
def splitTerminator (sep : Char) (s : Str) : List Str :=
  let ps := splitSep sep s
  if ps.getLast? = some [] then ps.dropLast else ps

/-- Decimal digits of a natural number, used for Display of numbers in error
messages. -/
def natToStr (n : Nat) : Str := Nat.toDigits 10 n

/-- Decimal rendering of an integer. -/
def intToStr (i : Int) : Str :=
  if i < 0 then '-' :: natToStr i.natAbs else natToStr i.toNat

/- ---------------------------------------------------------------------------
Glob patterns.

The repository calls glob::Pattern::new and glob::Pattern::matches (crate
glob, version 0.3). The definitions below are a translation of that crate
as exercised by this repository: Pattern::matches calls matches_with with
the default MatchOptions::new(), namely case_sensitive = true,
require_literal_separator = false and require_literal_leading_dot = false,
on a Unix host where path::is_separator c holds exactly for the slash.
The branches of the crate that are guarded by the two boolean options are
therefore dropped (both options are false), and chars_eq with
case_sensitive = true is plain character equality.
--------------------------------------------------------------------------- -/

/-- Character specifier of a glob bracket expression (glob crate
CharSpecifier). -/
inductive CharSpecifier where
  | singleChar (c : Char)
  | charRange (lo hi : Char)
deriving DecidableEq

/-- Token of a compiled glob pattern (glob crate PatternToken). -/
inductive PatternToken where
  | char (c : Char)
  | anyChar
  | anySequence
  | anyRecursiveSequence
  | anyWithin (specs : List CharSpecifier)
  | anyExcept (specs : List CharSpecifier)
deriving DecidableEq

/-- Compilation error of a glob pattern (glob crate PatternError): a
position and a message. -/
structure PatternError where
  pos : Nat
  msg : Str
deriving DecidableEq

/-- A compiled glob pattern: its token list (the original text and the
is_recursive flag of the crate are not consulted by Pattern::matches and
are omitted). -/
structure Pattern where
  tokens : List PatternToken
deriving DecidableEq

def errWildcards : Str :=
  "wildcards are either regular `*` or recursive `**`".data

def errRecursiveWildcards : Str :=
  "recursive wildcards must form a single path component".data

def errInvalidRange : Str := "invalid range pattern".data

/-- Translation of glob parse_char_specifiers: a dash with a character on
both sides forms a range, everything else is a single character. -/
def parseCharSpecifiers : Str → List CharSpecifier
  | [] => []
  | [a] => [.singleChar a]
  | [a, b] => [.singleChar a, .singleChar b]
  | a :: b :: c2 :: rest2 =>
    if b == '-' then .charRange a c2 :: parseCharSpecifiers rest2
    else .singleChar a :: parseCharSpecifiers (b :: c2 :: rest2)

/-- Number of leading stars of a character list. -/
def countStars : Str → Nat
  | '*' :: rest => countStars rest + 1
  | _ => 0

/-- Drop the leading stars of a character list. -/
def dropStars : Str → Str
  | '*' :: rest => dropStars rest
  | l => l

/-- Index of the first closing bracket, Rust position of the char close
bracket. -/
def findCloseIdx (l : Str) : Option Nat := l.findIdx? (fun x => x == ']')

/-- Main loop of glob Pattern::new. The arguments are the remaining
characters, the current index i in the original pattern, the character
just before position i (none at the start), and the reversed list of
tokens built so far. The fuel argument only bounds the number of loop
iterations: every iteration consumes at least one character, so the
initial fuel, one more than the length of the pattern, is never
exhausted and the fuel-zero branch is unreachable. -/
def patternNewLoop : Nat → Str → Nat → Option Char → List PatternToken →
    Except PatternError (List PatternToken)
  | 0, _, _, _, acc => .ok acc.reverse
  | _ + 1, [], _, _, acc => .ok acc.reverse
  | fuel + 1, c :: rest, i, prev, acc =>
    if c == '?' then
      patternNewLoop fuel rest (i + 1) (some '?') (.anyChar :: acc)
    else if c == '*' then
      let count := 1 + countStars rest
      let rest2 := dropStars rest
      if count > 2 then .error ⟨i + 2, errWildcards⟩
      else if count == 2 then
        if i == 0 || prev == some '/' then
          let acc2 :=
            if acc.length > 1 && acc.head? == some .anyRecursiveSequence
            then acc else .anyRecursiveSequence :: acc
          match rest2 with
          | '/' :: rest3 => patternNewLoop fuel rest3 (i + 3) (some '/') acc2
          | [] => patternNewLoop fuel [] (i + 2) (some '*') acc2
          | _ => .error ⟨i + 2, errRecursiveWildcards⟩
        else .error ⟨i - 1, errRecursiveWildcards⟩
      else
        patternNewLoop fuel rest2 (i + 1) (some '*') (.anySequence :: acc)
    else if c == '[' then
      match rest with
      | '!' :: a :: t0 :: tail =>
        (match findCloseIdx (t0 :: tail) with
         | some j =>
           patternNewLoop fuel ((t0 :: tail).drop (j + 1)) (i + j + 4)
             (some ']')
             (.anyExcept (parseCharSpecifiers (a :: (t0 :: tail).take j))
               :: acc)
         | none => .error ⟨i, errInvalidRange⟩)
      | a :: t0 :: tail =>
        if a == '!' then .error ⟨i, errInvalidRange⟩
        else
          match findCloseIdx (t0 :: tail) with
          | some j =>
            patternNewLoop fuel ((t0 :: tail).drop (j + 1)) (i + j + 3)
              (some ']')
              (.anyWithin (parseCharSpecifiers (a :: (t0 :: tail).take j))
                :: acc)
          | none => .error ⟨i, errInvalidRange⟩
      | _ => .error ⟨i, errInvalidRange⟩
    else
      patternNewLoop fuel rest (i + 1) (some c) (.char c :: acc)

/-- Translation of glob Pattern::new: compile a pattern string to tokens or
report a syntax error. -/
def Pattern.new (s : Str) : Except PatternError Pattern :=
  match patternNewLoop (s.length + 1) s 0 none [] with
  | .ok toks => .ok ⟨toks⟩
  | .error e => .error e

/-- Result of the glob matcher (glob crate MatchResult):
EntirePatternDoesntMatch prunes backtracking when the path has run out. -/
inductive MatchResult where
  | Match
  | SubPatternDoesntMatch
  | EntirePatternDoesntMatch
deriving DecidableEq

/-- Translation of glob in_char_specifiers with case_sensitive matching. -/
def inCharSpecifiers (specs : List CharSpecifier) (c : Char) : Bool :=
  specs.any fun s =>
    match s with
    | .singleChar sc => c == sc
    | .charRange lo hi => decide (lo ≤ c) && decide (c ≤ hi)

/-- Character test of a non-sequence token, the inner match of glob
matches_from with the default options. -/
def tokenMatchesChar : PatternToken → Char → Bool
  | .char c2, c => c == c2
  | .anyChar, _ => true
  | .anyWithin specs, c => inCharSpecifiers specs c
  | .anyExcept specs, c => !(inCharSpecifiers specs c)
  | .anySequence, _ => false
  | .anyRecursiveSequence, _ => false

/-- The while loop of the sequence-token arm of glob matches_from: try the
continuation k after consuming one more character at a time. For the
recursive token the continuation is only tried at characters that are a
separator. When the path is exhausted the entire pattern cannot match. -/
def seqLoop (k : Bool → Str → MatchResult) (isRec : Bool) :
    Str → MatchResult
  | [] => .EntirePatternDoesntMatch
  | c :: file =>
    let fs := c == '/'
    if isRec && !fs then seqLoop k isRec file
    else
      match k fs file with
      | .SubPatternDoesntMatch => seqLoop k isRec file
      | m => m

/-- Translation of glob matches_from with the default options, recursing on
the token list. The boolean records whether the previous character was a
separator. The fuel is exactly the token-list length plus one and is
decremented together with the token list, so the fuel-zero branch is
unreachable. -/
def matchesFromF : Nat → List PatternToken → Bool → Str → MatchResult
  | 0, _, _, _ => .EntirePatternDoesntMatch
  | _ + 1, [], _, file =>
    if file.isEmpty then .Match else .SubPatternDoesntMatch
  | fuel + 1, tok :: rest, fs, file =>
    match tok with
    | .anySequence =>
      (match matchesFromF fuel rest fs file with
       | .SubPatternDoesntMatch =>
         seqLoop (fun a b => matchesFromF fuel rest a b) false file
       | m => m)
    | .anyRecursiveSequence =>
      (match matchesFromF fuel rest fs file with
       | .SubPatternDoesntMatch =>
         seqLoop (fun a b => matchesFromF fuel rest a b) true file
       | m => m)
    | t =>
      (match file with
       | [] => .EntirePatternDoesntMatch
       | c :: file2 =>
         if tokenMatchesChar t c then matchesFromF fuel rest (c == '/') file2
         else .SubPatternDoesntMatch)

/-- Translation of glob Pattern::matches: matches_with against the whole
path with the default MatchOptions, starting with follows_separator set. -/
def Pattern.matches (p : Pattern) (path : Str) : Bool :=
  match matchesFromF (p.tokens.length + 1) p.tokens true path with
  | .Match => true
  | _ => false

/- ---------------------------------------------------------------------------
Status classifier of src/lib.rs git_hash, lines 136 to 171.
--------------------------------------------------------------------------- -/

/-- Allowed status-code alphabet of src/lib.rs lines 151 and 152: space, M,
T, A, D, R, C, U. -/
def allowedCode (c : Char) : Bool :=
  c == ' ' || c == 'M' || c == 'T' || c == 'A' || c == 'D' || c == 'R' ||
    c == 'C' || c == 'U'

/-- Embedding of the byte-level record check of src/lib.rs lines 148 to 159:
first two bytes in the allowed alphabet, third byte a space, and at least
one further byte. On a valid UTF-8 string a byte below 0x80 at the start
of a character is that one-byte character, so the byte pattern coincides
with this character-level check: the first three characters are forced to
be one-byte ASCII and the residual length-four-bytes requirement becomes
the existence of a fourth character. -/
def statusLineOk : Str → Bool
  | c0 :: c1 :: c2 :: rest =>
    allowedCode c0 && allowedCode c1 && c2 == ' ' && !rest.isEmpty
  | _ => false

/-- Body of the for loop of src/lib.rs lines 141 to 169 for one record:
reject untracked and ignored prefixes, reject malformed records, then
either leave the dirty flag unchanged when some expected pattern matches
the path (the record is logged, not counted) or set it. -/
def statusStep (pats : List Pattern) (dirty : Bool) (line : Str) :
    Except Str Bool :=
  if strStartsWith line "?? ".data then
    .error "untracked file should have been omitted".data
  else if strStartsWith line "!! ".data then
    .error "ignored file should have been omitted".data
  else if !statusLineOk line then
    .error "bad status".data
  else
    let path := line.drop 3
    if pats.any fun p => p.matches path then .ok dirty
    else .ok true

/-- The for loop of src/lib.rs lines 141 to 169, folded over the records. -/
def statusFold (pats : List Pattern) (dirty : Bool) :
    List Str → Except Str Bool
  | [] => .ok dirty
  | line :: rest =>
    match statusStep pats dirty line with
    | .ok d2 => statusFold pats d2 rest
    | .error e => .error e

/-- The status-parsing closure of src/lib.rs lines 136 to 171: split the
porcelain payload at NUL terminators and fold the records into the dirty
verdict, starting clean. -/
def statusDirty (pats : List Pattern) (s : Str) : Except Str Bool :=
  statusFold pats false (splitTerminator (Char.ofNat 0) s)

/-- The rev-parse validating closure of src/lib.rs lines 117 to 124: trim
trailing whitespace, then require at least nine characters, all lowercase
hexadecimal. Rust compares the byte length against nine, but a string of
at least nine bytes whose characters are not all one-byte hexadecimal
characters fails the second conjunct, so the byte-length test and this
character-length test accept exactly the same strings. -/
def validate_commit_id (s : Str) : Except Str Str :=
  let t := rustTrimEnd s
  if decide (t.length ≥ 9) && t.all isHexLower then .ok t
  else .error "bad commit id".data

/- ---------------------------------------------------------------------------
Command runner: extract_stdout of src/lib.rs lines 181 to 201 and run_git of
lines 218 to 230.
--------------------------------------------------------------------------- -/

/-- Captured result of a spawned process: the exit code and the raw bytes of
the two output streams. A successful exit status is code zero; display of
a signal-terminated status is outside this model. -/
structure Output where
  status : Int
  stdout : List Nat
  stderr : List Nat
deriving DecidableEq

/-- Display of a Unix exit status carrying a code. -/
def displayExitStatus (st : Int) : Str := "exit status: ".data ++ intToStr st

/-- One lowercase hexadecimal digit. -/
def hexDigitLower (n : Nat) : Char :=
  if n < 10 then Char.ofNat (48 + n) else Char.ofNat (87 + n)

/-- Embedding of Rust u8 escape_ascii for one byte: the six named escapes,
printable ASCII unchanged, everything else a two-digit hex escape. -/
def escapeAsciiByte (b : Nat) : Str :=
  if b == 9 then ['\\', 't']
  else if b == 13 then ['\\', 'r']
  else if b == 10 then ['\\', 'n']
  else if b == 92 then ['\\', '\\']
  else if b == 39 then ['\\', '\x27']
  else if b == 34 then ['\\', '"']
  else if 0x20 ≤ b && b ≤ 0x7e then [Char.ofNat b]
  else ['\\', 'x', hexDigitLower (b / 16), hexDigitLower (b % 16)]

/-- Embedding of Rust slice escape_ascii over a byte sequence. -/
def escapeAscii (bs : List Nat) : Str := (bs.map escapeAsciiByte).flatten

/-- Decoding error of Rust str::from_utf8: the length of the valid prefix
and, for an invalid sequence, its length in bytes (none when the input
ends in the middle of a sequence). -/
structure Utf8Error where
  valid_up_to : Nat
  error_len : Option Nat
deriving DecidableEq

/-- Continuation-byte test: 0x80 to 0xBF. -/
def isUtf8Cont (b : Nat) : Bool := 0x80 ≤ b && b < 0xC0

/-- Allowed second byte of a three-byte sequence, by leading byte, as in the
core validation: E0 requires A0 to BF, ED requires 80 to 9F, the rest a
plain continuation byte. -/
def utf8Second3Ok (b b1 : Nat) : Bool :=
  (b == 0xE0 && 0xA0 ≤ b1 && b1 ≤ 0xBF) ||
    (0xE1 ≤ b && b ≤ 0xEC && isUtf8Cont b1) ||
    (b == 0xED && 0x80 ≤ b1 && b1 ≤ 0x9F) ||
    (0xEE ≤ b && b ≤ 0xEF && isUtf8Cont b1)

/-- Allowed second byte of a four-byte sequence, by leading byte: F0
requires 90 to BF, F4 requires 80 to 8F, the rest a plain continuation
byte. -/
def utf8Second4Ok (b b1 : Nat) : Bool :=
  (b == 0xF0 && 0x90 ≤ b1 && b1 ≤ 0xBF) ||
    (0xF1 ≤ b && b ≤ 0xF3 && isUtf8Cont b1) ||
    (b == 0xF4 && 0x80 ≤ b1 && b1 ≤ 0x8F)

/-- Embedding of the UTF-8 validation loop of Rust core run_utf8_validation,
also producing the decoded characters. The index argument is the byte
offset of the current position, reported in errors exactly as Rust does:
the offset of the start of the offending sequence, with the length of the
invalid sequence, or none when the input ends early. -/
def utf8DecodeLoop : Nat → List Nat → Except Utf8Error Str
  | _, [] => .ok []
  | i, b :: rest =>
    if b < 0x80 then
      match utf8DecodeLoop (i + 1) rest with
      | .ok cs => .ok (Char.ofNat b :: cs)
      | .error e => .error e
    else if b < 0xC2 then .error ⟨i, some 1⟩
    else if b < 0xE0 then
      match rest with
      | [] => .error ⟨i, none⟩
      | b1 :: rest1 =>
        if isUtf8Cont b1 then
          match utf8DecodeLoop (i + 2) rest1 with
          | .ok cs => .ok (Char.ofNat ((b - 0xC0) * 64 + (b1 - 0x80)) :: cs)
          | .error e => .error e
        else .error ⟨i, some 1⟩
    else if b < 0xF0 then
      match rest with
      | [] => .error ⟨i, none⟩
      | b1 :: rest1 =>
        if utf8Second3Ok b b1 then
          match rest1 with
          | [] => .error ⟨i, none⟩
          | b2 :: rest2 =>
            if isUtf8Cont b2 then
              match utf8DecodeLoop (i + 3) rest2 with
              | .ok cs =>
                .ok (Char.ofNat
                  ((b - 0xE0) * 4096 + (b1 - 0x80) * 64 + (b2 - 0x80)) :: cs)
              | .error e => .error e
            else .error ⟨i, some 2⟩
        else .error ⟨i, some 1⟩
    else if b < 0xF5 then
      match rest with
      | [] => .error ⟨i, none⟩
      | b1 :: rest1 =>
        if utf8Second4Ok b b1 then
          match rest1 with
          | [] => .error ⟨i, none⟩
          | b2 :: rest2 =>
            if isUtf8Cont b2 then
              match rest2 with
              | [] => .error ⟨i, none⟩
              | b3 :: rest3 =>
                if isUtf8Cont b3 then
                  match utf8DecodeLoop (i + 4) rest3 with
                  | .ok cs =>
                    .ok (Char.ofNat
                      ((b - 0xF0) * 262144 + (b1 - 0x80) * 4096 +
                        (b2 - 0x80) * 64 + (b3 - 0x80)) :: cs)
                  | .error e => .error e
                else .error ⟨i, some 3⟩
            else .error ⟨i, some 2⟩
        else .error ⟨i, some 1⟩
    else .error ⟨i, some 1⟩

/-- Embedding of Rust str::from_utf8 over a byte sequence. -/
def utf8Decode (bs : List Nat) : Except Utf8Error Str := utf8DecodeLoop 0 bs

/-- Display of a Utf8Error, as in core. -/
def displayUtf8Error (e : Utf8Error) : Str :=
  match e.error_len with
  | some n =>
    "invalid utf-8 sequence of ".data ++ natToStr n ++
      " bytes from index ".data ++ natToStr e.valid_up_to
  | none =>
    "incomplete utf-8 byte sequence from index ".data ++
      natToStr e.valid_up_to

/-- Embedding of extract_stdout, src/lib.rs lines 181 to 201: a non-success
exit status gives a failure message with the command line, the displayed
status and the escaped stderr bytes; undecodable stdout gives a message
with the command line, the decode error and the escaped stdout bytes;
otherwise the decoded text is returned untrimmed. -/
def extract_stdout (cmd_line : Str) (output : Output) : Except Str Str :=
  if !(output.status == 0) then
    .error ("`".data ++ cmd_line ++ "` failed: ".data ++
      displayExitStatus output.status ++ "\n\n".data ++
      escapeAscii output.stderr)
  else
    match utf8Decode output.stdout with
    | .error e =>
      .error ("Unexpected output from `".data ++ cmd_line ++ "`: ".data ++
        displayUtf8Error e ++ "\n\n".data ++ escapeAscii output.stdout)
    | .ok s => .ok s

/-- Join of an argument list with single spaces, Rust slice join. -/
def joinSpace : List Str → Str
  | [] => []
  | [a] => a
  | a :: rest => a ++ " ".data ++ joinSpace rest

/-- Command line displayed for a git invocation from the workspace
directory, src/lib.rs line 224. -/
def gitCmdLine (ws : Str) (args : List Str) : Str :=
  "git -C ".data ++ ws ++ " ".data ++ joinSpace args

/-- Embedding of run_git, src/lib.rs lines 218 to 230, applied to the
captured process output: extract the stdout text and parse it, wrapping a
parse failure with the command line and the raw payload. The resolution
of the workspace directory and the spawning of the process are the
surrounding IO; the captured output is a parameter. -/
def run_git (cmd_line : Str) (output : Output)
    (parse : Str → Except Str α) : Except Str α :=
  match extract_stdout cmd_line output with
  | .error e => .error e
  | .ok stdout =>
    match parse stdout with
    | .ok v => .ok v
    | .error e =>
      .error ("Unexpected output from `".data ++ cmd_line ++ "`: ".data ++
        e ++ "\n\n".data ++ stdout)

def gitArgsRevShort : List Str :=
  ["rev-parse".data, "--short=9".data, "HEAD".data]

def gitArgsRevFull : List Str := ["rev-parse".data, "HEAD".data]

def gitArgsStatus : List Str :=
  ["status".data, "--untracked=no".data, "--ignore-submodules=all".data,
    "--no-renames".data, "--porcelain".data, "-z".data]

/-- Embedding of git_hash, src/lib.rs lines 109 to 179, applied to the
captured outputs of the two git invocations: resolve and validate the
base hash, resolve the dirty verdict from the status report, and append
the literal modified suffix exactly when dirty. -/
def git_hash (ws : Str) (pats : List Pattern) (short : Bool)
    (revOut statusOut : Output) : Except Str Str :=
  match run_git (gitCmdLine ws (if short then gitArgsRevShort
      else gitArgsRevFull)) revOut validate_commit_id with
  | .error e => .error e
  | .ok h =>
    match run_git (gitCmdLine ws gitArgsStatus) statusOut
        (statusDirty pats) with
    | .error e => .error e
    | .ok dirty => .ok (if dirty then h ++ "-modified".data else h)

/- ---------------------------------------------------------------------------
Configuration: get_expected_patterns of src/lib.rs lines 82 to 103 and
set_metadata_env_vars of lines 66 to 80.
--------------------------------------------------------------------------- -/

/-- Debug rendering of one character inside a quoted Rust string: the named
escapes, then ASCII printable characters unchanged, other ASCII control
characters as a braced unicode escape. Non-ASCII code points are kept
unchanged (Rust would escape the non-printable ones among them via
Unicode tables; the configuration patterns of this crate are ASCII). -/
def rustDebugChar (c : Char) : Str :=
  if c == '"' then ['\\', '"']
  else if c == '\\' then ['\\', '\\']
  else if c == '\n' then ['\\', 'n']
  else if c == '\r' then ['\\', 'r']
  else if c == '\t' then ['\\', 't']
  else if c.toNat < 0x20 || c.toNat == 0x7F then
    ['\\', 'u', '\x7b'] ++ natToStr c.toNat ++ ['\x7d']
  else [c]

/-- Debug rendering of a Rust string: the escaped characters between double
quotes. -/
def rustDebugStr (s : Str) : Str :=
  "\"".data ++ (s.map rustDebugChar).flatten ++ "\"".data

/-- Display of a glob PatternError, as in the glob crate. -/
def displayPatternError (e : PatternError) : Str :=
  "Pattern syntax error near position ".data ++ natToStr e.pos ++
    ": ".data ++ e.msg

def patternVarName : Str := "FURIOSA_METADATA_EXPECT_MODIFIED".data

/-- Compile the colon-separated pattern list, src/lib.rs lines 88 to 99: an
empty piece is a configuration error, a piece rejected by the glob
compiler is a configuration error, and the first error wins. -/
def compilePatterns : List Str → Except Str (List Pattern)
  | [] => .ok []
  | p :: rest =>
    if p.isEmpty then
      .error (patternVarName ++ " contains an empty pattern".data)
    else
      match Pattern.new p with
      | .error e =>
        .error (patternVarName ++ " contains an invalid pattern ".data ++
          rustDebugStr p ++ ": ".data ++ displayPatternError e)
      | .ok pat =>
        match compilePatterns rest with
        | .ok pats => .ok (pat :: pats)
        | .error e => .error e

/-- Embedding of get_expected_patterns, src/lib.rs lines 82 to 103, applied
to the value of the configuration variable: absent or empty means no
exceptions, otherwise the value is split at colons and compiled. A
present but non-Unicode value, which Rust forwards as a VarError, is
outside this model. -/
def get_expected_patterns (v : Option Str) : Except Str (List Pattern) :=
  match v with
  | none => .ok []
  | some s => if s.isEmpty then .ok [] else compilePatterns (splitSep ':' s)

/-- The environment visible to set_metadata_env_vars: the two hash output
variables that it reads, the configuration variable, and the timestamp
output variable, which the code never reads but which this model records
so that idempotence claims about it can be stated. -/
structure BuildEnv where
  gitShortHash : Option Str
  gitFullHash : Option Str
  expectModified : Option Str
  buildTimestamp : Option Str
deriving DecidableEq

def shortHashKey : Str := "FURIOSA_GIT_SHORT_HASH".data

def fullHashKey : Str := "FURIOSA_GIT_FULL_HASH".data

def timestampKey : Str := "FURIOSA_BUILD_TIMESTAMP".data

/-- One conditional hash block of set_metadata_env_vars, lines 67 to 70 and
72 to 75 of src/lib.rs: when the variable is absent, read the patterns,
run the hash computation, and emit the binding; when it is present, emit
nothing for it and run nothing. -/
def hashBranch (already : Option Str) (expect : Option Str) (key : Str)
    (ws : Str) (short : Bool) (revOut statusOut : Output) :
    Except Str (List (Str × Str)) :=
  match already with
  | some _ => .ok []
  | none =>
    match get_expected_patterns expect with
    | .error e => .error e
    | .ok pats =>
      match git_hash ws pats short revOut statusOut with
      | .error e => .error e
      | .ok h => .ok [(key, h)]

/-- Embedding of set_metadata_env_vars, src/lib.rs lines 66 to 80, applied
to the pre-existing environment, the captured outputs of the up to four
git invocations, and the freshly formatted timestamp: the result is the
ordered list of rustc-env bindings printed. Each hash binding is emitted
only when its variable is absent, in which case the patterns are read and
the hash computed; the timestamp binding is always emitted. -/
def set_metadata_env_vars (env : BuildEnv) (ws : Str)
    (revShortOut statusOut1 revFullOut statusOut2 : Output) (ts : Str) :
    Except Str (List (Str × Str)) :=
  match hashBranch env.gitShortHash env.expectModified shortHashKey ws true
      revShortOut statusOut1 with
  | .error e => .error e
  | .ok out1 =>
    match hashBranch env.gitFullHash env.expectModified fullHashKey ws false
        revFullOut statusOut2 with
    | .error e => .error e
    | .ok out2 => .ok (out1 ++ out2 ++ [(timestampKey, ts)])

/-- Number of positions of the haystack at which the needle occurs as a
contiguous substring, used to state that the modified suffix is appended
exactly once. -/
def occurrencesOf (needle hay : Str) : Nat :=
  hay.tails.countP fun t => strStartsWith t needle

/- ---------------------------------------------------------------------------
Theorems.
--------------------------------------------------------------------------- -/

theorem statusStep_ok_elim (pats : List Pattern) (d : Bool) (line : Str)
    (d2 : Bool) (h : statusStep pats d line = .ok d2) :
    strStartsWith line "?? ".data = false ∧
      strStartsWith line "!! ".data = false ∧
      statusLineOk line = true ∧
      d2 = (if pats.any (fun p => p.matches (line.drop 3)) then d
        else true) := by
  unfold statusStep at h
  by_cases h1 : strStartsWith line "?? ".data
  · simp [h1] at h
  · by_cases h2 : strStartsWith line "!! ".data
    · simp [h1, h2] at h
    · by_cases h3 : statusLineOk line
      · by_cases h4 : pats.any (fun p => p.matches (line.drop 3))
        · simp [h1, h2, h3, h4] at h
          simp [h1, h2, h3, h4, h]
        · simp [h1, h2, h3, h4] at h
          simp [h1, h2, h3, h4, h]
      · simp [h1, h2, h3] at h

theorem statusFold_ok_elim (pats : List Pattern) (lines : List Str) :
    ∀ d d2, statusFold pats d lines = .ok d2 →
      (d2 = true ↔ d = true ∨ ∃ l ∈ lines,
        (pats.any fun p => p.matches (l.drop 3)) = false) ∧
      ∀ l ∈ lines, strStartsWith l "?? ".data = false ∧
        strStartsWith l "!! ".data = false ∧ statusLineOk l = true := by
  induction lines with
  | nil =>
    intro d d2 h
    unfold statusFold at h
    cases h
    simp
  | cons line rest ih =>
    intro d d2 h
    unfold statusFold at h
    cases hs : statusStep pats d line with
    | error e => rw [hs] at h; cases h
    | ok dmid =>
      rw [hs] at h
      obtain ⟨h1, h2, h3, h4⟩ := statusStep_ok_elim pats d line dmid hs
      obtain ⟨iff1, valid⟩ := ih dmid d2 h
      refine ⟨?_, ?_⟩
      · rw [iff1]
        by_cases hm : pats.any (fun p => p.matches (line.drop 3))
        · simp only [hm, if_true] at h4
          subst h4
          simp only [List.mem_cons]
          constructor
          · rintro (hd | ⟨l, hl, hnl⟩)
            · exact Or.inl hd
            · exact Or.inr ⟨l, Or.inr hl, hnl⟩
          · rintro (hd | ⟨l, (rfl | hl), hnl⟩)
            · exact Or.inl hd
            · rw [hm] at hnl; cases hnl
            · exact Or.inr ⟨l, hl, hnl⟩
        · simp only [hm, if_false] at h4
          subst h4
          simp only [List.mem_cons]
          constructor
          · intro _
            refine Or.inr ⟨line, Or.inl rfl, ?_⟩
            cases hb : pats.any fun p => p.matches (line.drop 3) with
            | false => rfl
            | true => exact absurd hb hm
          · intro _
            exact Or.inl (by simp)
      · intro l hl
        rcases List.mem_cons.mp hl with rfl | hl2
        · exact ⟨h1, h2, h3⟩
        · exact valid l hl2

/-- C1: for every status report and every set of ignore patterns, when the
classifier completes, the dirty verdict is true exactly when at least one
parsed record has a path that matches none of the supplied ignore
patterns; a record whose path matches some pattern leaves the verdict
unchanged. -/
theorem C1_dirty_iff_unignored (pats : List Pattern) (s : Str) (d : Bool)
    (h : statusDirty pats s = .ok d) :
    d = true ↔ ∃ l ∈ splitTerminator (Char.ofNat 0) s,
      ∀ p ∈ pats, p.matches (l.drop 3) = false := by
  have hmain :=
    (statusFold_ok_elim pats (splitTerminator (Char.ofNat 0) s) false d h).1
  rw [hmain]
  constructor
  · rintro (hf | ⟨l, hl, hany⟩)
    · cases hf
    · refine ⟨l, hl, ?_⟩
      intro p hp
      cases hpm : p.matches (l.drop 3) with
      | false => rfl
      | true =>
        have : pats.any (fun q => q.matches (l.drop 3)) = true :=
          List.any_eq_true.mpr ⟨p, hp, hpm⟩
        rw [this] at hany
        cases hany
  · rintro ⟨l, hl, hall⟩
    refine Or.inr ⟨l, hl, ?_⟩
    cases hb : pats.any fun p => p.matches (l.drop 3) with
    | false => rfl
    | true =>
      obtain ⟨p, hp, hpm⟩ := List.any_eq_true.mp hb
      rw [hall p hp] at hpm
      cases hpm

/-- Closed instantiation of C1: a report with the single record space-M
space a is dirty under no patterns because the sole record matches none of
them. -/
theorem C1_dirty_iff_unignored_witness :
    ∃ l ∈ splitTerminator (Char.ofNat 0) " M a\x00".data,
      ∀ p ∈ ([] : List Pattern), p.matches (l.drop 3) = false :=
  (C1_dirty_iff_unignored [] " M a\x00".data true (by decide)).mp rfl

theorem statusDirty_error_of_bad_line (pats : List Pattern) (s : Str)
    (l : Str) (hl : l ∈ splitTerminator (Char.ofNat 0) s)
    (hbad : ¬(strStartsWith l "?? ".data = false ∧
      strStartsWith l "!! ".data = false ∧ statusLineOk l = true)) :
    ∃ e, statusDirty pats s = .error e := by
  cases hres : statusDirty pats s with
  | error e => exact ⟨e, rfl⟩
  | ok d =>
    have hvalid :=
      (statusFold_ok_elim pats (splitTerminator (Char.ofNat 0) s) false d
        hres).2
    exact absurd (hvalid l hl) hbad

theorem git_hash_error_of_status_error (ws : Str) (pats : List Pattern)
    (short : Bool) (revOut statusOut : Output) (s : Str) (e : Str)
    (hst : statusOut.status = 0) (hdec : utf8Decode statusOut.stdout = .ok s)
    (he : statusDirty pats s = .error e) :
    ∃ e2, git_hash ws pats short revOut statusOut = .error e2 := by
  unfold git_hash
  cases hrev : run_git (gitCmdLine ws (if short then gitArgsRevShort
      else gitArgsRevFull)) revOut validate_commit_id with
  | error e3 => exact ⟨e3, rfl⟩
  | ok h =>
    have hx : extract_stdout (gitCmdLine ws gitArgsStatus) statusOut =
        .ok s := by
      unfold extract_stdout
      rw [hst]
      simp only [Int.reduceEq]
      rw [hdec]
      simp
    have hrun : run_git (gitCmdLine ws gitArgsStatus) statusOut
        (statusDirty pats) =
        .error ("Unexpected output from `".data ++
          gitCmdLine ws gitArgsStatus ++ "`: ".data ++ e ++ "\n\n".data ++
          s) := by
      unfold run_git
      simp only [hx, he]
    rw [hrun]
    exact ⟨_, rfl⟩

/-- C5: a status record signalling the untracked or the ignored category is
a parse error of the classifier, and the whole hash computation reports an
error instead of a hash. -/
theorem C5_untracked_rejected (pats : List Pattern) (s : Str) (l : Str)
    (hl : l ∈ splitTerminator (Char.ofNat 0) s)
    (hq : strStartsWith l "?? ".data = true ∨
      strStartsWith l "!! ".data = true) :
    (∃ e, statusDirty pats s = .error e) ∧
    ∀ ws short revOut statusOut, statusOut.status = 0 →
      utf8Decode statusOut.stdout = .ok s →
      ∃ e2, git_hash ws pats short revOut statusOut = .error e2 := by
  have hbad : ¬(strStartsWith l "?? ".data = false ∧
      strStartsWith l "!! ".data = false ∧ statusLineOk l = true) := by
    rintro ⟨h1, h2, _⟩
    rcases hq with hq | hq
    · rw [hq] at h1; cases h1
    · rw [hq] at h2; cases h2
  obtain ⟨e, he⟩ := statusDirty_error_of_bad_line pats s l hl hbad
  refine ⟨⟨e, he⟩, ?_⟩
  intro ws short revOut statusOut hst hdec
  exact git_hash_error_of_status_error ws pats short revOut statusOut s e
    hst hdec he

/-- Closed instantiation of C5 at the report containing the single
untracked record. -/
theorem C5_untracked_rejected_witness :
    (∃ e, statusDirty [] "?? new.txt\x00".data = .error e) ∧
    ∃ e2, git_hash "/w".data [] true ⟨0, [], []⟩
      ⟨0, "?? new.txt\x00".data.map Char.toNat, []⟩ = .error e2 := by
  have h := C5_untracked_rejected [] "?? new.txt\x00".data
    "?? new.txt".data (by decide) (Or.inl (by decide))
  exact ⟨h.1, h.2 "/w".data true ⟨0, [], []⟩
    ⟨0, "?? new.txt\x00".data.map Char.toNat, []⟩ rfl (by decide)⟩

/-- C6: a status record whose two status-code characters are not both in
the allowed alphabet, or whose third character is not a space, is a parse
error of the classifier, and the whole hash computation reports an error
instead of a hash. -/
theorem C6_bad_code_rejected (pats : List Pattern) (s : Str)
    (c0 c1 c2 : Char) (rest : Str)
    (hl : (c0 :: c1 :: c2 :: rest) ∈ splitTerminator (Char.ofNat 0) s)
    (hbad : allowedCode c0 = false ∨ allowedCode c1 = false ∨
      (c2 == ' ') = false) :
    (∃ e, statusDirty pats s = .error e) ∧
    ∀ ws short revOut statusOut, statusOut.status = 0 →
      utf8Decode statusOut.stdout = .ok s →
      ∃ e2, git_hash ws pats short revOut statusOut = .error e2 := by
  have hbad2 : ¬(strStartsWith (c0 :: c1 :: c2 :: rest) "?? ".data = false ∧
      strStartsWith (c0 :: c1 :: c2 :: rest) "!! ".data = false ∧
      statusLineOk (c0 :: c1 :: c2 :: rest) = true) := by
    rintro ⟨_, _, h3⟩
    unfold statusLineOk at h3
    simp only [Bool.and_eq_true] at h3
    rcases hbad with hb | hb | hb
    · rw [hb] at h3; simp at h3
    · rw [hb] at h3; simp at h3
    · rw [hb] at h3; simp at h3
  obtain ⟨e, he⟩ := statusDirty_error_of_bad_line pats s _ hl hbad2
  refine ⟨⟨e, he⟩, ?_⟩
  intro ws short revOut statusOut hst hdec
  exact git_hash_error_of_status_error ws pats short revOut statusOut s e
    hst hdec he

/-- Closed instantiation of C6 at a record with the status prefix X Y
space. -/
theorem C6_bad_code_rejected_witness :
    (∃ e, statusDirty [] "XY bad\x00".data = .error e) ∧
    ∃ e2, git_hash "/w".data [] true ⟨0, [], []⟩
      ⟨0, "XY bad\x00".data.map Char.toNat, []⟩ = .error e2 := by
  have h := C6_bad_code_rejected [] "XY bad\x00".data 'X' 'Y' ' '
    "bad".data (by decide) (Or.inl (by decide))
  exact ⟨h.1, h.2 "/w".data true ⟨0, [], []⟩
    ⟨0, "XY bad\x00".data.map Char.toNat, []⟩ rfl (by decide)⟩

/-- C10: classification is total by construction in this model, and the
path suffix is only taken behind the record check requiring a fourth
character. A record shorter than four characters, including the empty
record produced by a lone separator, makes the classifier report a parse
error, and the whole hash computation reports an error instead of a
hash. -/
theorem C10_short_record_rejected (pats : List Pattern) (s : Str) (l : Str)
    (hl : l ∈ splitTerminator (Char.ofNat 0) s) (hshort : l.length < 4) :
    (∃ e, statusDirty pats s = .error e) ∧
    ∀ ws short revOut statusOut, statusOut.status = 0 →
      utf8Decode statusOut.stdout = .ok s →
      ∃ e2, git_hash ws pats short revOut statusOut = .error e2 := by
  have hbad : ¬(strStartsWith l "?? ".data = false ∧
      strStartsWith l "!! ".data = false ∧ statusLineOk l = true) := by
    rintro ⟨_, _, h3⟩
    match l, h3 with
    | c0 :: c1 :: c2 :: rest, h3 =>
      unfold statusLineOk at h3
      simp only [Bool.and_eq_true] at h3
      have hne := h3.2
      cases rest with
      | nil => simp at hne
      | cons r rs => simp at hshort; omega
  obtain ⟨e, he⟩ := statusDirty_error_of_bad_line pats s l hl hbad
  refine ⟨⟨e, he⟩, ?_⟩
  intro ws short revOut statusOut hst hdec
  exact git_hash_error_of_status_error ws pats short revOut statusOut s e
    hst hdec he

/-- Closed instantiation of C10 at the report consisting of a lone
separator, whose single record is empty. -/
theorem C10_short_record_rejected_witness :
    (∃ e, statusDirty [] "\x00".data = .error e) ∧
    ∃ e2, git_hash "/w".data [] true ⟨0, [], []⟩
      ⟨0, "\x00".data.map Char.toNat, []⟩ = .error e2 := by
  have h := C10_short_record_rejected [] "\x00".data [] (by decide)
    (by decide)
  exact ⟨h.1, h.2 "/w".data true ⟨0, [], []⟩
    ⟨0, "\x00".data.map Char.toNat, []⟩ rfl (by decide)⟩

theorem run_git_ok (cmd : Str) (out : Output) (parse : Str → Except Str α)
    (s : Str) (v : α) (hx : extract_stdout cmd out = .ok s)
    (hp : parse s = .ok v) : run_git cmd out parse = .ok v := by
  unfold run_git
  simp only [hx, hp]

theorem git_hash_ok (ws : Str) (pats : List Pattern) (short : Bool)
    (revOut statusOut : Output) (rs h ss : Str) (d : Bool)
    (hrev : extract_stdout (gitCmdLine ws (if short then gitArgsRevShort
      else gitArgsRevFull)) revOut = .ok rs)
    (hval : validate_commit_id rs = .ok h)
    (hst : extract_stdout (gitCmdLine ws gitArgsStatus) statusOut = .ok ss)
    (hd : statusDirty pats ss = .ok d) :
    git_hash ws pats short revOut statusOut =
      .ok (if d then h ++ "-modified".data else h) := by
  unfold git_hash
  rw [run_git_ok _ _ _ _ _ hrev hval, run_git_ok _ _ _ _ _ hst hd]

theorem hex_not_dash (c : Char) (h : isHexLower c = true) :
    (c == '-') = false := by
  cases hb : c == '-' with
  | false => rfl
  | true =>
    have hc : c = '-' := eq_of_beq hb
    subst hc
    exact absurd h (by decide)

theorem occurrencesOf_cons (needle : Str) (c : Char) (t : Str) :
    occurrencesOf needle (c :: t) = occurrencesOf needle t +
      (if strStartsWith (c :: t) needle then 1 else 0) := by
  unfold occurrencesOf
  rw [List.tails_cons, List.countP_cons]

theorem occurrencesOf_zero_of_hex (h : Str) (hhex : h.all isHexLower = true) :
    occurrencesOf "-modified".data h = 0 := by
  induction h with
  | nil => decide
  | cons c t ih =>
    rw [List.all_cons, Bool.and_eq_true] at hhex
    rw [occurrencesOf_cons]
    have hns : strStartsWith (c :: t) "-modified".data = false := by
      show (c == '-' && strStartsWith t "modified".data) = false
      rw [hex_not_dash c hhex.1]
      rfl
    rw [hns, ih hhex.2]
    simp

theorem occurrencesOf_once_of_hex (h : Str)
    (hhex : h.all isHexLower = true) :
    occurrencesOf "-modified".data (h ++ "-modified".data) = 1 := by
  induction h with
  | nil => decide
  | cons c t ih =>
    rw [List.all_cons, Bool.and_eq_true] at hhex
    rw [List.cons_append, occurrencesOf_cons]
    have hns : strStartsWith (c :: (t ++ "-modified".data))
        "-modified".data = false := by
      show (c == '-' && strStartsWith (t ++ "-modified".data)
        "modified".data) = false
      rw [hex_not_dash c hhex.1]
      rfl
    rw [hns, ih hhex.2]
    simp

theorem validate_commit_id_hex (s h : Str)
    (hv : validate_commit_id s = .ok h) : h.all isHexLower = true := by
  unfold validate_commit_id at hv
  by_cases hc : (decide ((rustTrimEnd s).length ≥ 9) &&
      (rustTrimEnd s).all isHexLower) = true
  · rw [if_pos hc] at hv
    cases hv
    exact (Bool.and_eq_true .. ▸ hc).2
  · rw [if_neg hc] at hv
    cases hv

/-- C2: with an empty status report the classifier reports clean, the hash
is returned without the modified suffix, and the suffix occurs nowhere in
it; with a report whose classification is dirty the suffix is appended and
occurs exactly once in the result. -/
theorem C2_empty_clean_dirty_suffix (ws : Str) (pats : List Pattern)
    (short : Bool) (revOut statusOut : Output) (rs h ss : Str)
    (hrev : extract_stdout (gitCmdLine ws (if short then gitArgsRevShort
      else gitArgsRevFull)) revOut = .ok rs)
    (hval : validate_commit_id rs = .ok h)
    (hst : extract_stdout (gitCmdLine ws gitArgsStatus) statusOut = .ok ss) :
    (ss = [] → statusDirty pats ss = .ok false ∧
      git_hash ws pats short revOut statusOut = .ok h ∧
      occurrencesOf "-modified".data h = 0) ∧
    (statusDirty pats ss = .ok true →
      git_hash ws pats short revOut statusOut =
        .ok (h ++ "-modified".data) ∧
      occurrencesOf "-modified".data (h ++ "-modified".data) = 1) := by
  have hhex := validate_commit_id_hex rs h hval
  constructor
  · intro hempty
    subst hempty
    have hclean : statusDirty pats [] = .ok false := by
      unfold statusDirty splitTerminator splitSep statusFold
      simp
    refine ⟨hclean, ?_, occurrencesOf_zero_of_hex h hhex⟩
    have := git_hash_ok ws pats short revOut statusOut rs h [] false
      hrev hval hst hclean
    simpa using this
  · intro hdirty
    refine ⟨?_, occurrencesOf_once_of_hex h hhex⟩
    have := git_hash_ok ws pats short revOut statusOut rs h ss true
      hrev hval hst hdirty
    simpa using this

/-- Closed instantiation of C2: an empty report leaves the nine-character
hash bare, and a report with one unignored record appends the suffix
once. -/
theorem C2_empty_clean_dirty_suffix_witness :
    (statusDirty [] ([] : Str) = .ok false ∧
      git_hash "/w".data [] true
        ⟨0, "abcdef012\n".data.map Char.toNat, []⟩ ⟨0, [], []⟩ =
        .ok "abcdef012".data ∧
      occurrencesOf "-modified".data "abcdef012".data = 0) ∧
    (git_hash "/w".data [] true
        ⟨0, "abcdef012\n".data.map Char.toNat, []⟩
        ⟨0, " M a\x00".data.map Char.toNat, []⟩ =
        .ok ("abcdef012".data ++ "-modified".data) ∧
      occurrencesOf "-modified".data
        ("abcdef012".data ++ "-modified".data) = 1) := by
  constructor
  · exact (C2_empty_clean_dirty_suffix "/w".data [] true
      ⟨0, "abcdef012\n".data.map Char.toNat, []⟩ ⟨0, [], []⟩
      "abcdef012\n".data "abcdef012".data [] (by decide) (by decide)
      (by decide)).1 rfl
  · exact (C2_empty_clean_dirty_suffix "/w".data [] true
      ⟨0, "abcdef012\n".data.map Char.toNat, []⟩
      ⟨0, " M a\x00".data.map Char.toNat, []⟩
      "abcdef012\n".data "abcdef012".data " M a\x00".data (by decide)
      (by decide) (by decide)).2 (by decide)

theorem hex_not_ws (c : Char) (h : isHexLower c = true) :
    rustIsWhitespace c = false := by
  simp only [isHexLower, Bool.or_eq_true, Bool.and_eq_true,
    decide_eq_true_eq] at h
  simp only [rustIsWhitespace, Bool.or_eq_false_iff, Bool.and_eq_false_iff,
    decide_eq_false_iff_not, Nat.beq_eq_true_eq, beq_eq_false_iff_ne,
    ne_eq, not_le]
  omega

theorem dropWhile_append_of_all (p : Char → Bool) (a b : Str)
    (ha : ∀ c ∈ a, p c = true) :
    (a ++ b).dropWhile p = b.dropWhile p := by
  induction a with
  | nil => rfl
  | cons c t ih =>
    rw [List.cons_append, List.dropWhile_cons,
      if_pos (ha c (List.mem_cons_self c t)),
      ih (fun x hx => ha x (List.mem_cons_of_mem c hx))]

theorem trimEnd_hex_append_ws (x w : Str) (hx : x.all isHexLower = true)
    (hw : ∀ c ∈ w, rustIsWhitespace c = true) :
    rustTrimEnd (x ++ w) = x := by
  unfold rustTrimEnd
  rw [List.reverse_append]
  rw [dropWhile_append_of_all rustIsWhitespace w.reverse x.reverse
    (fun c hc => hw c (List.mem_reverse.mp hc))]
  cases hxr : x.reverse with
  | nil =>
    have : x = [] := by
      have := congrArg List.reverse hxr
      simpa using this
    simp [this]
  | cons c t =>
    have hcx : c ∈ x := by
      have : c ∈ x.reverse := by rw [hxr]; exact List.mem_cons_self c t
      exact List.mem_reverse.mp this
    have hchex : isHexLower c = true :=
      List.all_eq_true.mp hx c hcx
    rw [List.dropWhile_cons, if_neg (by rw [hex_not_ws c hchex]; simp)]
    have := congrArg List.reverse hxr
    simpa using this.symm

theorem validate_ok_of_hex (x w : Str) (hx : x.all isHexLower = true)
    (hlen : 9 ≤ x.length) (hw : ∀ c ∈ w, rustIsWhitespace c = true) :
    validate_commit_id (x ++ w) = .ok x := by
  unfold validate_commit_id
  rw [trimEnd_hex_append_ws x w hx hw]
  rw [if_pos]
  rw [hx]
  simp [hlen]

/-- C3: a full forty-character lowercase-hexadecimal resolution output,
possibly with trailing whitespace, is returned exactly; any prefix of it
of length at least nine is accepted as the short form and is itself at
least nine characters of hexadecimal; and any output whose trimmed text is
shorter than nine characters or contains a character outside the lowercase
hexadecimal digits is rejected with the parse error, never repaired. -/
theorem C3_hash_validation (hh w : Str) (h40 : hh.length = 40)
    (hhex : hh.all isHexLower = true)
    (hw : ∀ c ∈ w, rustIsWhitespace c = true) :
    validate_commit_id (hh ++ w) = .ok hh ∧
    (∀ n, 9 ≤ n → validate_commit_id (hh.take n ++ w) = .ok (hh.take n) ∧
      9 ≤ (hh.take n).length ∧ (hh.take n).all isHexLower = true) ∧
    (∀ s : Str, ((rustTrimEnd s).length < 9 ∨
        ∃ c ∈ rustTrimEnd s, isHexLower c = false) →
      validate_commit_id s = .error "bad commit id".data) := by
  refine ⟨?_, ?_, ?_⟩
  · exact validate_ok_of_hex hh w hhex (by omega) hw
  · intro n hn
    have htake : (hh.take n).all isHexLower = true := by
      rw [List.all_eq_true]
      intro c hc
      exact List.all_eq_true.mp hhex c ((List.take_sublist n hh).subset hc)
    have hlen : 9 ≤ (hh.take n).length := by
      rw [List.length_take, h40]
      omega
    exact ⟨validate_ok_of_hex (hh.take n) w htake hlen hw, hlen, htake⟩
  · intro s hcase
    unfold validate_commit_id
    rw [if_neg]
    intro hcond
    rw [Bool.and_eq_true, decide_eq_true_eq] at hcond
    rcases hcase with hlt | ⟨c, hc, hbad⟩
    · omega
    · rw [List.all_eq_true.mp hcond.2 c hc] at hbad
      cases hbad

/-- Closed instantiation of C3 at a concrete forty-character hash with a
trailing newline: full form, nine-character short form, and the rejection
of a short and of a non-hexadecimal output. -/
theorem C3_hash_validation_witness :
    validate_commit_id
        ("0123456789abcdef0123456789abcdef01234567".data ++ "\n".data) =
      .ok "0123456789abcdef0123456789abcdef01234567".data ∧
    validate_commit_id
        ("0123456789abcdef0123456789abcdef01234567".data.take 9 ++
          "\n".data) =
      .ok ("0123456789abcdef0123456789abcdef01234567".data.take 9) ∧
    validate_commit_id "abcdef01\n".data = .error "bad commit id".data ∧
    validate_commit_id "ABCDEF0123456789\n".data =
      .error "bad commit id".data := by
  have h := C3_hash_validation
    "0123456789abcdef0123456789abcdef01234567".data "\n".data
    (by decide) (by decide) (by decide)
  exact ⟨h.1, (h.2.1 9 (by decide)).1,
    h.2.2 "abcdef01\n".data (Or.inl (by decide)),
    h.2.2 "ABCDEF0123456789\n".data (Or.inr ⟨'A', by decide, by decide⟩)⟩

/-- C9: a non-success exit status yields the command-failure message built
from the exact command line, the displayed exit status and the escaped
raw stderr bytes; a success status with stdout that does not decode as
UTF-8 yields the decode message built from the command line, the decode
error and the escaped raw stdout bytes; and only a success status with
decodable stdout returns the raw text payload. -/
theorem C9_extract_stdout_spec (cmd : Str) (out : Output) :
    (¬out.status = 0 → extract_stdout cmd out =
      .error ("`".data ++ cmd ++ "` failed: ".data ++
        displayExitStatus out.status ++ "\n\n".data ++
        escapeAscii out.stderr)) ∧
    (out.status = 0 → ∀ e, utf8Decode out.stdout = .error e →
      extract_stdout cmd out =
        .error ("Unexpected output from `".data ++ cmd ++ "`: ".data ++
          displayUtf8Error e ++ "\n\n".data ++ escapeAscii out.stdout)) ∧
    (out.status = 0 → ∀ s, utf8Decode out.stdout = .ok s →
      extract_stdout cmd out = .ok s) := by
  refine ⟨?_, ?_, ?_⟩
  · intro hne
    unfold extract_stdout
    rw [if_pos (by simp [hne])]
  · intro h0 e hdec
    unfold extract_stdout
    rw [if_neg (by simp [h0]), hdec]
  · intro h0 s hdec
    unfold extract_stdout
    rw [if_neg (by simp [h0]), hdec]

/-- Closed instantiation of C9: a failing invocation with one stderr byte,
a successful invocation with invalid UTF-8 stdout, and a successful
invocation with plain-text stdout. -/
theorem C9_extract_stdout_spec_witness :
    extract_stdout "git st".data ⟨1, [], [0, 65, 10]⟩ =
      .error ("`".data ++ "git st".data ++ "` failed: ".data ++
        displayExitStatus 1 ++ "\n\n".data ++ escapeAscii [0, 65, 10]) ∧
    extract_stdout "git st".data ⟨0, [0xFF, 0x41], []⟩ =
      .error ("Unexpected output from `".data ++ "git st".data ++
        "`: ".data ++ displayUtf8Error ⟨0, some 1⟩ ++ "\n\n".data ++
        escapeAscii [0xFF, 0x41]) ∧
    extract_stdout "git st".data ⟨0, [0x61, 0x62], []⟩ =
      .ok "ab".data := by
  refine ⟨?_, ?_, ?_⟩
  · exact (C9_extract_stdout_spec "git st".data ⟨1, [], [0, 65, 10]⟩).1
      (by decide)
  · exact (C9_extract_stdout_spec "git st".data ⟨0, [0xFF, 0x41], []⟩).2.1
      rfl ⟨0, some 1⟩ (by decide)
  · exact (C9_extract_stdout_spec "git st".data ⟨0, [0x61, 0x62], []⟩).2.2
      rfl "ab".data (by decide)

theorem compilePatterns_error_of_mem (p : Str)
    (hbad : p = [] ∨ ∃ e, Pattern.new p = .error e) :
    ∀ ps : List Str, p ∈ ps → ∃ e2, compilePatterns ps = .error e2 := by
  intro ps
  induction ps with
  | nil => intro hp; cases hp
  | cons q rest ih =>
    intro hp
    unfold compilePatterns
    by_cases hq : q.isEmpty
    · exact ⟨_, by rw [if_pos hq]⟩
    · rw [if_neg hq]
      cases hnew : Pattern.new q with
      | error e => exact ⟨_, rfl⟩
      | ok pat =>
        rcases List.mem_cons.mp hp with rfl | hmem
        · rcases hbad with rfl | ⟨e, he⟩
          · simp at hq
          · rw [hnew] at he; cases he
        · obtain ⟨e2, he2⟩ := ih hmem
          rw [he2]
          exact ⟨e2, rfl⟩

/-- C7: an absent or empty configuration value yields the empty exception
list without error; a value with an empty piece between colons, or a piece
the glob compiler rejects, makes the configuration step fail; and on a
fresh run the configuration failure is the whole result, for every
possible process output, so it is surfaced before any process result is
consumed. -/
theorem C7_pattern_config :
    get_expected_patterns none = .ok [] ∧
    get_expected_patterns (some []) = .ok [] ∧
    (∀ v : Str, v ≠ [] → ∀ p ∈ splitSep ':' v,
      (p = [] ∨ ∃ e, Pattern.new p = .error e) →
      ∃ e2, get_expected_patterns (some v) = .error e2) ∧
    (∀ (env : BuildEnv) ws o1 o2 o3 o4 ts e,
      env.gitShortHash = none →
      get_expected_patterns env.expectModified = .error e →
      set_metadata_env_vars env ws o1 o2 o3 o4 ts = .error e) := by
  refine ⟨rfl, rfl, ?_, ?_⟩
  · intro v hv p hp hbad
    simp only [get_expected_patterns]
    rw [if_neg (by simp [hv])]
    exact compilePatterns_error_of_mem p hbad (splitSep ':' v) hp
  · intro env ws o1 o2 o3 o4 ts e hshort hpat
    unfold set_metadata_env_vars hashBranch
    rw [hshort, hpat]

/-- Closed instantiation of C7: a leading colon yields an empty piece and a
configuration error, and on a fresh environment carrying that value the
whole metadata step fails with it for arbitrary outputs. -/
theorem C7_pattern_config_witness :
    (∃ e2, get_expected_patterns (some ":a".data) = .error e2) ∧
    set_metadata_env_vars ⟨none, none, some ":a".data, none⟩ "/w".data
        ⟨0, [], []⟩ ⟨0, [], []⟩ ⟨0, [], []⟩ ⟨0, [], []⟩ "t".data =
      .error (patternVarName ++ " contains an empty pattern".data) := by
  refine ⟨?_, ?_⟩
  · exact C7_pattern_config.2.2.1 ":a".data (by decide) [] (by decide)
      (Or.inl rfl)
  · exact C7_pattern_config.2.2.2 ⟨none, none, some ":a".data, none⟩
      "/w".data ⟨0, [], []⟩ ⟨0, [], []⟩ ⟨0, [], []⟩ ⟨0, [], []⟩ "t".data
      (patternVarName ++ " contains an empty pattern".data) rfl
      (by decide)

theorem hashBranch_ok_shape (a e : Option Str) (k ws : Str) (short : Bool)
    (r s : Output) (out : List (Str × Str))
    (h : hashBranch a e k ws short r s = .ok out) :
    out = [] ∨ ∃ hh, out = [(k, hh)] := by
  unfold hashBranch at h
  cases a with
  | some v => cases h; exact Or.inl rfl
  | none =>
    cases hp : get_expected_patterns e with
    | error e2 => simp only [hp] at h; exact Except.noConfusion h
    | ok pats =>
      simp only [hp] at h
      cases hg : git_hash ws pats short r s with
      | error e2 => simp only [hg] at h; exact Except.noConfusion h
      | ok hh =>
        simp only [hg] at h
        cases h
        exact Or.inr ⟨hh, rfl⟩

/-- C8 counterexample: even with the timestamp output variable already set
in the environment, running the metadata step emits a binding carrying a
freshly computed timestamp different from the pre-existing value, so
recomputation of the timestamp is not skipped. -/
theorem C8_timestamp_not_skipped :
    (BuildEnv.mk (some "abc".data) (some "abc".data) none
        (some "2020-01-01T00:00:00Z".data)).buildTimestamp =
      some "2020-01-01T00:00:00Z".data ∧
    set_metadata_env_vars
        (BuildEnv.mk (some "abc".data) (some "abc".data) none
          (some "2020-01-01T00:00:00Z".data)) "/w".data
        ⟨0, [], []⟩ ⟨0, [], []⟩ ⟨0, [], []⟩ ⟨0, [], []⟩
        "2026-10-12T00:00:00Z".data =
      .ok [(timestampKey, "2026-10-12T00:00:00Z".data)] ∧
    "2026-10-12T00:00:00Z".data ≠ "2020-01-01T00:00:00Z".data := by
  refine ⟨rfl, rfl, by decide⟩

/-- C8 amended: for each of the two hash outputs, a pre-set variable makes
the step skip that recomputation, leaving the result independent of the
corresponding process outputs and emitting no binding for that key; the
timestamp binding however is always emitted with the fresh value,
regardless of any pre-existing one. -/
theorem C8_hash_skip_timestamp_always (env : BuildEnv) (ws : Str)
    (o1 o2 o3 o4 : Output) (ts : Str) :
    (env.gitShortHash ≠ none →
      (∀ o1x o2x, set_metadata_env_vars env ws o1x o2x o3 o4 ts =
        set_metadata_env_vars env ws o1 o2 o3 o4 ts) ∧
      ∀ bs hsh, set_metadata_env_vars env ws o1 o2 o3 o4 ts = .ok bs →
        (shortHashKey, hsh) ∉ bs) ∧
    (env.gitFullHash ≠ none →
      (∀ o3x o4x, set_metadata_env_vars env ws o1 o2 o3x o4x ts =
        set_metadata_env_vars env ws o1 o2 o3 o4 ts) ∧
      ∀ bs hsh, set_metadata_env_vars env ws o1 o2 o3 o4 ts = .ok bs →
        (fullHashKey, hsh) ∉ bs) ∧
    (∀ bs, set_metadata_env_vars env ws o1 o2 o3 o4 ts = .ok bs →
      (timestampKey, ts) ∈ bs) := by
  refine ⟨?_, ?_, ?_⟩
  · intro hne
    obtain ⟨v, hv⟩ := Option.ne_none_iff_exists'.mp hne
    constructor
    · intro o1x o2x
      unfold set_metadata_env_vars
      rw [hv]
      rfl
    · intro bs hsh hok
      unfold set_metadata_env_vars at hok
      rw [hv] at hok
      cases hfull : hashBranch env.gitFullHash env.expectModified
          fullHashKey ws false o3 o4 with
      | error e =>
        simp only [hfull] at hok
        exact Except.noConfusion hok
      | ok out2 =>
        simp only [hfull] at hok
        have hok2 : Except.ok ([] ++ out2 ++ [(timestampKey, ts)]) =
          Except.ok bs := hok
        cases hok2
        intro hmem
        have hk := List.mem_map_of_mem Prod.fst hmem
        rcases hashBranch_ok_shape _ _ _ _ _ _ _ _ hfull with rfl | ⟨hh, rfl⟩
        · simp only [List.nil_append, List.map_cons, List.map_nil] at hk
          revert hk
          decide
        · simp only [List.nil_append, List.cons_append, List.map_cons,
            List.map_nil] at hk
          revert hk
          decide
  · intro hne
    obtain ⟨v, hv⟩ := Option.ne_none_iff_exists'.mp hne
    constructor
    · intro o3x o4x
      unfold set_metadata_env_vars
      rw [hv]
      cases hshort : hashBranch env.gitShortHash env.expectModified
          shortHashKey ws true o1 o2 with
      | error e => rfl
      | ok out1 => rfl
    · intro bs hsh hok
      unfold set_metadata_env_vars at hok
      rw [hv] at hok
      cases hshort : hashBranch env.gitShortHash env.expectModified
          shortHashKey ws true o1 o2 with
      | error e =>
        simp only [hshort] at hok
        exact Except.noConfusion hok
      | ok out1 =>
        simp only [hshort] at hok
        have hok2 : Except.ok (out1 ++ [] ++ [(timestampKey, ts)]) =
          Except.ok bs := hok
        cases hok2
        intro hmem
        have hk := List.mem_map_of_mem Prod.fst hmem
        rcases hashBranch_ok_shape _ _ _ _ _ _ _ _ hshort with rfl | ⟨hh, rfl⟩
        · simp only [List.nil_append, List.map_cons, List.map_nil] at hk
          revert hk
          decide
        · simp only [List.cons_append, List.nil_append, List.append_nil,
            List.map_cons, List.map_nil] at hk
          revert hk
          decide
  · intro bs hok
    unfold set_metadata_env_vars at hok
    cases hshort : hashBranch env.gitShortHash env.expectModified
        shortHashKey ws true o1 o2 with
    | error e =>
      simp only [hshort] at hok
      exact Except.noConfusion hok
    | ok out1 =>
      simp only [hshort] at hok
      cases hfull : hashBranch env.gitFullHash env.expectModified
          fullHashKey ws false o3 o4 with
      | error e =>
        simp only [hfull] at hok
        exact Except.noConfusion hok
      | ok out2 =>
        simp only [hfull] at hok
        have hok2 : Except.ok (out1 ++ out2 ++ [(timestampKey, ts)]) =
          Except.ok bs := hok
        cases hok2
        simp [List.mem_append]

/-- Closed instantiation of the amended C8: with both hash variables set,
neither hash binding is emitted, the result does not depend on the git
outputs, and the fresh timestamp binding is present. -/
theorem C8_hash_skip_timestamp_always_witness :
    (set_metadata_env_vars
        (BuildEnv.mk (some "a".data) (some "b".data) none none) "/w".data
        ⟨1, [], []⟩ ⟨1, [], []⟩ ⟨0, [], []⟩ ⟨0, [], []⟩ "t".data =
      set_metadata_env_vars
        (BuildEnv.mk (some "a".data) (some "b".data) none none) "/w".data
        ⟨0, [], []⟩ ⟨0, [], []⟩ ⟨0, [], []⟩ ⟨0, [], []⟩ "t".data) ∧
    ((shortHashKey, "x".data) ∉
      [(timestampKey, "t".data)] : Prop) ∧
    (timestampKey, "t".data) ∈ [(timestampKey, "t".data)] := by
  have h := C8_hash_skip_timestamp_always
    (BuildEnv.mk (some "a".data) (some "b".data) none none) "/w".data
    ⟨0, [], []⟩ ⟨0, [], []⟩ ⟨0, [], []⟩ ⟨0, [], []⟩ "t".data
  refine ⟨(h.1 (by simp)).1 ⟨1, [], []⟩ ⟨1, [], []⟩, ?_, ?_⟩
  · exact (h.1 (by simp)).2 [(timestampKey, "t".data)] "x".data rfl
  · exact h.2.2 [(timestampKey, "t".data)] rfl

/-- C4: the glob matcher used by the classifier is not path-component
aware: the compiled pattern star-dot-bak does match the nested path
foo/bar.bak (the star crosses the separator under the default match
options), contrary to the documentation comment of the crate, while the
recursive pattern also matches it; as a consequence a status report whose
only record is that nested path is classified clean under the
star-dot-bak ignore pattern. -/
theorem C4_star_crosses_separator :
    Pattern.new "*.bak".data =
      .ok ⟨[.anySequence, .char '.', .char 'b', .char 'a', .char 'k']⟩ ∧
    Pattern.matches
        ⟨[.anySequence, .char '.', .char 'b', .char 'a', .char 'k']⟩
        "foo/bar.bak".data = true ∧
    Pattern.new "**/*.bak".data =
      .ok ⟨[.anyRecursiveSequence, .anySequence, .char '.', .char 'b',
        .char 'a', .char 'k']⟩ ∧
    Pattern.matches
        ⟨[.anyRecursiveSequence, .anySequence, .char '.', .char 'b',
          .char 'a', .char 'k']⟩ "foo/bar.bak".data = true ∧
    statusDirty
        [⟨[.anySequence, .char '.', .char 'b', .char 'a', .char 'k']⟩]
        " M foo/bar.bak\x00".data = .ok false := by
  refine ⟨by decide, by decide, by decide, by decide, by decide⟩

end FM
